import Mathlib

/-!
Verification of the incremental backup engine (`backup_utility.py`).

The Python source is shallowly embedded: file contents are byte lists,
the destination tree is an association list from relative path strings to
contents plus a list of created directories, and every stateful method is
a pure function threading that state.  The external `hashlib` digests and
`gzip` compression are modelled as injective tagging functions of the
content, since the program only ever compares digests for equality and
never inspects their text.  Thread-pool phases are modelled as sequential
folds: each task is independent and the run only consumes order-insensitive
aggregates (counts, sums, error lists) of the results.
-/

namespace BackupUtil

/-- Byte content of a file. -/
abbrev Content := List Nat

/-- Model of `hashlib.md5(...).hexdigest()` over whole-file content:
an injective function of the content, tagged so it never collides with
the sha256 model. -/
def md5Hex (c : Content) : List Nat := 0 :: c

/-- Model of `hashlib.sha256(...).hexdigest()` over whole-file content. -/
def sha256Hex (c : Content) : List Nat := 1 :: c

/-- `_calculate_hash`: streams the file and returns the `(md5, sha256)`
pair; the chunking is unobservable in the result, so the model digests the
whole content. -/
def calculateHash (c : Content) : List Nat × List Nat := (md5Hex c, sha256Hex c)

/-- Model of gzip compression of the source bytes (`gzip.open` +
`copyfileobj`): an injective transformation distinct from the identity,
so compressed bytes never equal the raw bytes' digests by accident. -/
def gzipCompress (c : Content) : Content := 2 :: c

/-- The two values of `--algorithm` accepted by the CLI
(`choices=['md5','sha256']`). -/
inductive Alg where
  | md5
  | sha256
deriving DecidableEq

/-- `FileHash` dataclass: path (source-relative), size, mtime, and the two
hex digests.  `mtime` is Python's float seconds-since-epoch; it is modelled
as an exact rational, which preserves the `abs(prev.mtime - mtime) > 0.001`
comparison the code performs. -/
structure FileHash where
  path : String
  size : Nat
  mtime : ℚ
  md5 : List Nat
  sha256 : List Nat
deriving DecidableEq

/-- Dictionary lookup `self.previous_hashes[path]` /
`path in self.previous_hashes`, with the dict modelled as an association
list keyed by relative path. -/
def lookupHash (prev : List (String × FileHash)) (p : String) : Option FileHash :=
  (prev.find? (fun e => e.1 == p)).map (fun e => e.2)

/-- The 1ms tolerance constant in `_needs_backup`. -/
def mtimeTolerance : ℚ := 1 / 1000

/-- The digest of a record selected by the configured checksum algorithm. -/
def selectedDigest (alg : Alg) (h : FileHash) : List Nat :=
  match alg with
  | .md5 => h.md5
  | .sha256 => h.sha256

/-- `_needs_backup`: decides whether a file must be copied, in this order:
no previous entry, size change, mtime change beyond 1ms, then the digest
of the configured algorithm. -/
def needsBackup (alg : Alg) (previousHashes : List (String × FileHash))
    (fileHash : FileHash) : Bool :=
  match lookupHash previousHashes fileHash.path with
  | none => true
  | some prev =>
    if prev.size ≠ fileHash.size then true
    else if |prev.mtime - fileHash.mtime| > mtimeTolerance then true
    else if alg = .md5 then decide (prev.md5 ≠ fileHash.md5)
    else decide (prev.sha256 ≠ fileHash.sha256)

/-- Claim C1: `_needs_backup` returns "changed" exactly by the documented
short-circuiting precedence — true iff the relative path has no entry in
the previous table, or the size differs, or the mtimes differ by more than
0.001 seconds, or the digest selected by the configured algorithm differs;
and it returns "unchanged" (the file is skipped) exactly when an entry
exists and size, mtime (within tolerance) and the selected digest all
match. -/
theorem needsBackup_spec (alg : Alg) (prev : List (String × FileHash))
    (h : FileHash) :
    (needsBackup alg prev h = true ↔
      lookupHash prev h.path = none ∨
        ∃ p, lookupHash prev h.path = some p ∧
          (p.size ≠ h.size ∨ |p.mtime - h.mtime| > mtimeTolerance ∨
            selectedDigest alg p ≠ selectedDigest alg h)) ∧
    (needsBackup alg prev h = false ↔
      ∃ p, lookupHash prev h.path = some p ∧ p.size = h.size ∧
        |p.mtime - h.mtime| ≤ mtimeTolerance ∧
        selectedDigest alg p = selectedDigest alg h) := by
  cases hl : lookupHash prev h.path with
  | none =>
    simp [needsBackup, hl]
  | some p =>
    unfold needsBackup
    rw [hl]
    by_cases hs : p.size = h.size
    · by_cases hm : |p.mtime - h.mtime| > mtimeTolerance
      · simp [hs, hm]
      · cases alg <;> simp [hs, hm, selectedDigest, not_lt.mp hm]
    · simp [hs]

/-- The destination tree: relative path → content for regular files (an
association list where the most recent write shadows older entries, like
the real filesystem), plus the list of directories created under the
destination root. -/
structure Fs where
  files : List (String × Content)
  dirs : List String
deriving DecidableEq

/-- Reading the file stored at `p` (`open(p, 'rb')`): `none` models
`FileNotFoundError`. -/
def Fs.lookup (fs : Fs) (p : String) : Option Content :=
  (fs.files.find? (fun e => e.1 == p)).map (fun e => e.2)

/-- `Path.exists()` on a destination file. -/
def Fs.pathExists (fs : Fs) (p : String) : Bool :=
  (fs.lookup p).isSome

/-- Writing a file at `p` (`shutil.copy2` / `gzip.open(..., 'wb')`). -/
def Fs.write (fs : Fs) (p : String) (c : Content) : Fs :=
  { fs with files := (p, c) :: fs.files }

/-- `Path.unlink()`: removes the entry stored at `p`. -/
def Fs.unlink (fs : Fs) (p : String) : Fs :=
  { fs with files := fs.files.filter (fun e => e.1 != p) }

/-- Splitting a relative path on `/` separators. -/
def splitCharsAux : List Char → List Char → List (List Char)
  | [], acc => [acc.reverse]
  | c :: rest, acc =>
    if c = '/' then acc.reverse :: splitCharsAux rest []
    else splitCharsAux rest (c :: acc)

/-- Path components of a relative path string. -/
def splitOnSlash (s : String) : List String :=
  (splitCharsAux s.toList []).map (fun l => String.mk l)

/-- Joining path components back with `/`. -/
def joinComponents : List String → String
  | [] => ""
  | [x] => x
  | x :: rest => x ++ "/" ++ joinComponents rest

/-- The proper ancestor directories of a relative path, e.g.
`a/b/c.txt ↦ [a, a/b]`: the directories `mkdir(parents=True)` creates. -/
def parentDirs (p : String) : List String :=
  let comps := splitOnSlash p
  (List.range (comps.length - 1)).map (fun i => joinComponents (comps.take (i + 1)))

/-- `dest_file.parent.mkdir(parents=True, exist_ok=True)`: records every
missing ancestor directory of the relative path. -/
def Fs.mkdirParents (fs : Fs) (p : String) : Fs :=
  { fs with dirs := fs.dirs ++ (parentDirs p).filter (fun d => !(fs.dirs.contains d)) }

/-- `dest_file.with_suffix(dest_file.suffix + '.gz')`: replacing the final
suffix by itself plus `.gz` appends `.gz` to the path. -/
def withGz (p : String) : String := p ++ ".gz"

/-- `path / other`: join with a `/` separator. -/
def joinPath (a b : String) : String := a ++ "/" ++ b

/-- The 1 KiB threshold above which `_backup_file` gzip-compresses. -/
def compressThreshold : Nat := 1024

/-- Result of one `_backup_file` call: the updated destination tree, the
boolean the method returns, and the error strings it appended to
`manifest.errors`. -/
structure CopyOutcome where
  fs : Fs
  ok : Bool
  errors : List String
deriving DecidableEq

/-- `_backup_file`: makes the parent directories (before the dry-run
check, as in the source), returns early on dry-run, writes the artifact
(gzip-compressed at the `.gz`-suffixed path when compression is on and
the size exceeds 1 KiB, a plain copy otherwise), then re-digests
`dest_file if not self.compress else self.dest / file_hash.path` and
compares the configured digest against the source record; any `OSError`
(including the read of a missing path) or mismatch appends a per-file
error and returns `False`. -/
def backupFile (compress dryRun : Bool) (alg : Alg) (fileHash : FileHash)
    (sourceContent : Content) (fs : Fs) : CopyOutcome :=
  let fs1 := fs.mkdirParents fileHash.path
  if dryRun = true then { fs := fs1, ok := true, errors := [] }
  else
    let big := compress = true ∧ compressThreshold < fileHash.size
    let destFile := if big then withGz fileHash.path else fileHash.path
    let written := if big then gzipCompress sourceContent else sourceContent
    let fs2 := fs1.write destFile written
    let hashTarget := if compress = false then destFile else fileHash.path
    match fs2.lookup hashTarget with
    | none =>
      { fs := fs2, ok := false, errors := ["Backup failed for " ++ fileHash.path] }
    | some destContent =>
      let destHash := calculateHash destContent
      let sourceHash := (fileHash.md5, fileHash.sha256)
      let mismatch :=
        if alg = .md5 then destHash.1 ≠ sourceHash.1 else destHash.2 ≠ sourceHash.2
      if mismatch then
        { fs := fs2, ok := false, errors := ["Backup failed for " ++ fileHash.path] }
      else
        { fs := fs2, ok := true, errors := [] }

/-- The destination path `_remove_deleted_files` targets for a stale
relative path. -/
def pruneTarget (compress : Bool) (p : String) : String :=
  if compress = true then withGz p else p

/-- Result of `_remove_deleted_files`: updated tree, the `removed`
counter it returns, and the errors it appended. -/
structure PruneOutcome where
  fs : Fs
  removed : Nat
  errors : List String
deriving DecidableEq

/-- `_remove_deleted_files`: walks the previous table's paths in order;
for each path absent from the current run it targets the destination
artifact (`.gz`-suffixed when compression is enabled), unlinks it when not
in dry-run mode and the target exists (a failed unlink — modelled by the
`unlinkOk` oracle — appends an error and is not counted), and otherwise
just increments the counter. -/
def removeDeletedFiles (compress dryRun : Bool) (unlinkOk : String → Bool)
    (currentPaths : List String) : List String → Fs → PruneOutcome
  | [], fs => { fs := fs, removed := 0, errors := [] }
  | oldPath :: rest, fs =>
    if currentPaths.contains oldPath then
      removeDeletedFiles compress dryRun unlinkOk currentPaths rest fs
    else
      let destFile := pruneTarget compress oldPath
      if dryRun = false ∧ fs.pathExists destFile = true then
        if unlinkOk destFile then
          let out := removeDeletedFiles compress dryRun unlinkOk currentPaths rest
            (fs.unlink destFile)
          { out with removed := out.removed + 1 }
        else
          let out := removeDeletedFiles compress dryRun unlinkOk currentPaths rest fs
          { out with errors := ("Cannot remove " ++ oldPath) :: out.errors }
      else
        let out := removeDeletedFiles compress dryRun unlinkOk currentPaths rest fs
        { out with removed := out.removed + 1 }

/-- A source file as the scanner hands it to the digest phase: its
source-relative path, the `stat` size and mtime, its byte content, and
whether reading it succeeds (`readable = false` models the
`OSError`/`PermissionError` branch of `_hash_file`). -/
structure SourceFile where
  path : String
  size : Nat
  mtime : ℚ
  content : Content
  readable : Bool
deriving DecidableEq

/-- `pattern in path_str` for one pattern: Python substring containment. -/
def isSubstring (pattern s : String) : Bool :=
  decide (pattern.toList <:+: s.toList)

/-- `_should_exclude`: true when any configured pattern is a substring of
the full path string. -/
def shouldExclude (excludePatterns : List String) (pathStr : String) : Bool :=
  excludePatterns.any (fun pattern => isSubstring pattern pathStr)

/-- `_hash_file`: stats and reads the file (failure appends an error and
yields no record), drops excluded files silently, and otherwise builds the
`FileHash` record; the record is returned together with the content it
was computed from, mirroring the bytes the later copy reads back. -/
def hashFile (excludePatterns : List String) (sourceRoot : String)
    (f : SourceFile) : Option (FileHash × Content) × List String :=
  if f.readable = false then
    (none, ["Cannot hash " ++ joinPath sourceRoot f.path])
  else if shouldExclude excludePatterns (joinPath sourceRoot f.path) = true then
    (none, [])
  else
    (some ({ path := f.path, size := f.size, mtime := f.mtime,
             md5 := md5Hex f.content, sha256 := sha256Hex f.content }, f.content), [])

/-- The parallel digest phase: every candidate is hashed and the
successful records populate `current_hashes`; the fold models the
completion loop, whose only outputs (the record dictionary and the error
list) are insensitive to completion order. -/
def hashPhase (excludePatterns : List String) (sourceRoot : String) :
    List SourceFile → List (FileHash × Content) × List String
  | [] => ([], [])
  | f :: rest =>
    let head := hashFile excludePatterns sourceRoot f
    let tail := hashPhase excludePatterns sourceRoot rest
    (match head.1 with
     | none => tail.1
     | some rc => rc :: tail.1, head.2 ++ tail.2)

/-- The parallel copy phase: runs `_backup_file` on each selected record,
threading the destination tree, and collects the per-task boolean results
and appended errors. -/
def copyPhase (compress dryRun : Bool) (alg : Alg) :
    List (FileHash × Content) → Fs → Fs × List Bool × List String
  | [], fs => (fs, [], [])
  | (h, c) :: rest, fs =>
    let out := backupFile compress dryRun alg h c fs
    let tail := copyPhase compress dryRun alg rest out.fs
    (tail.1, out.ok :: tail.2.1, out.errors ++ tail.2.2)

/-- The completion loop over copy futures: counts the successful copies
(`files_backed_up`) and accumulates `bytes_transferred` from the recorded
source size of each successful copy. -/
def tally : List (FileHash × Content) → List Bool → Nat × Nat
  | (h, _) :: rest, ok :: oks =>
    let t := tally rest oks
    if ok then (t.1 + 1, t.2 + h.size) else t
  | _, _ => (0, 0)

/-- The run-relevant configuration flags of `BackupUtility.__init__`. -/
structure Config where
  compress : Bool
  algorithm : Alg
  dryRun : Bool
  excludePatterns : List String
deriving DecidableEq

/-- The observable outcome of `BackupUtility.run`: the manifest counters,
the error list, the final destination tree, and the digest table persisted
to `.backup_hashes.json` (`none` when dry-run skips persisting). -/
structure RunResult where
  currentHashes : List (FileHash × Content)
  filesToBackup : List (FileHash × Content)
  copyResults : List Bool
  filesBackedUp : Nat
  filesSkipped : Nat
  filesRemoved : Nat
  bytesTransferred : Nat
  errors : List String
  fs : Fs
  savedTable : Option (List FileHash)

/-- `BackupUtility.run` on an already collected candidate list:
`previous_hashes` is initialised empty and — as in the source, where the
load step is an unimplemented stub — never populated from the persisted
digest table; the candidates are digested, every record passing
`_needs_backup` is copied, `files_skipped` is the difference of the two
lengths, deleted files are pruned, and outside dry-run the manifest and
digest table are persisted. -/
def run (cfg : Config) (sourceRoot : String) (files : List SourceFile)
    (destFs : Fs) : RunResult :=
  let previousHashes : List (String × FileHash) := []
  let hashed := hashPhase cfg.excludePatterns sourceRoot files
  let currentHashes := hashed.1
  let filesToBackup :=
    currentHashes.filter (fun rc => needsBackup cfg.algorithm previousHashes rc.1)
  let copied := copyPhase cfg.compress cfg.dryRun cfg.algorithm filesToBackup destFs
  let counts := tally filesToBackup copied.2.1
  let pruned := removeDeletedFiles cfg.compress cfg.dryRun (fun _ => true)
    (currentHashes.map (fun rc => rc.1.path)) (previousHashes.map (fun e => e.1))
    copied.1
  { currentHashes := currentHashes
    filesToBackup := filesToBackup
    copyResults := copied.2.1
    filesBackedUp := counts.1
    filesSkipped := currentHashes.length - filesToBackup.length
    filesRemoved := pruned.removed
    bytesTransferred := counts.2
    errors := hashed.2 ++ copied.2.2 ++ pruned.errors
    fs := pruned.fs
    savedTable :=
      if cfg.dryRun = true then none
      else some (currentHashes.map (fun rc => rc.1)) }

/-- `verify_backup` over the loaded digest table and the destination
tree: for every recorded entry the destination artifact at the recorded
relative path must exist and re-digest to the recorded md5 and sha256;
returns the overall boolean and the `Missing:`/`Corrupted:` report lines.
The function is pure: it reads the tree and returns only the report. -/
def verifyBackup (hashesData : List FileHash) (fs : Fs) : Bool × List String :=
  match hashesData with
  | [] => (true, [])
  | h :: rest =>
    let tail := verifyBackup rest fs
    match fs.lookup h.path with
    | none => (false, ("Missing: " ++ h.path) :: tail.2)
    | some c =>
      if md5Hex c ≠ h.md5 ∨ sha256Hex c ≠ h.sha256 then
        (false, ("Corrupted: " ++ h.path) :: tail.2)
      else tail

/-- A directory of the source tree: regular file names plus named
subdirectories. -/
inductive Tree where
  | node : List String → List (String × Tree) → Tree

/-- The resolved source root handed to `_collect_files`: either a regular
file or a directory tree. -/
inductive SourceRoot where
  | file : SourceRoot
  | dir : Tree → SourceRoot

mutual

/-- The `os.walk` body of `_collect_files` at one directory: collects the
non-excluded files of this directory, then descends only into
non-excluded subdirectories. -/
def collectFrom (excludePatterns : List String) (dirPath : String) :
    Tree → List String
  | .node fileNames subdirs =>
    (fileNames.filter
        (fun fn => !(shouldExclude excludePatterns (joinPath dirPath fn)))).map
      (fun fn => joinPath dirPath fn)
      ++ collectSubdirs excludePatterns dirPath subdirs

/-- Descends into the filtered subdirectory list (`dirs[:] = [...]`). -/
def collectSubdirs (excludePatterns : List String) (dirPath : String) :
    List (String × Tree) → List String
  | [] => []
  | (name, t) :: rest =>
    (if shouldExclude excludePatterns (joinPath dirPath name) then []
     else collectFrom excludePatterns (joinPath dirPath name) t)
      ++ collectSubdirs excludePatterns dirPath rest

end

/-- `_collect_files`: a source root that is itself a regular file is
returned as the single candidate (with no exclusion check); a directory
root is walked with exclusion applied to the full path of every file and
directory. -/
def collectFiles (excludePatterns : List String) (sourceRoot : String) :
    SourceRoot → List String
  | .file => [sourceRoot]
  | .dir t => collectFrom excludePatterns sourceRoot t

/-- Spec-side reading of "the files counted as backed up": the records of
the copy list whose task returned success, in order. -/
def specBackedUpRecords : List (FileHash × Content) → List Bool → List FileHash
  | (h, _) :: rest, ok :: oks =>
    if ok then h :: specBackedUpRecords rest oks else specBackedUpRecords rest oks
  | _, _ => []

/-- The set difference the pruner iterates over: previous paths absent
from the current run, in previous-table order. -/
def stalePaths (currentPaths previousPaths : List String) : List String :=
  previousPaths.filter (fun p => !(currentPaths.contains p))

/-- Configuration of the C2 scenario: defaults, no dry-run. -/
def c2Cfg : Config := ⟨false, .sha256, false, []⟩

/-- The single unchanged source file of the C2 scenario. -/
def c2File : SourceFile := ⟨"a.txt", 3, 5, [1, 2, 3], true⟩

/-- The first backup run of the C2 scenario, into an empty destination. -/
def c2FirstRun : RunResult := run c2Cfg "/src" [c2File] ⟨[], []⟩

/-- A 2000-byte source record for the compressed-copy scenario of C3. -/
def c3Hash : FileHash := ⟨"big.bin", 2000, 1, md5Hex [7], sha256Hex [7]⟩

/-- Compression enabled, default algorithm, no dry-run (C4 and C6
counterexample configuration). -/
def c4xCfg : Config := ⟨true, .sha256, false, []⟩

/-- C4 counterexample sources: a small `a.gz` and a large `a`, so the
compressed artifact of `a` lands exactly on `a.gz`. -/
def c4xFiles : List SourceFile := [⟨"a.gz", 500, 1, [5], true⟩, ⟨"a", 2000, 1, [7], true⟩]

/-- C4 counterexample destination: it already holds `a` with the source
content, so the (plain-path) post-copy check of `a` passes. -/
def c4xDest : Fs := ⟨[("a", [7])], []⟩

/-- Configuration of the C4 witness run: no compression, sha256. -/
def c4wCfg : Config := ⟨false, .sha256, false, []⟩

/-- Source file of the C4 witness run. -/
def c4wFile : SourceFile := ⟨"a.txt", 3, 5, [1, 2, 3], true⟩

/-- Dry-run configuration of the C5 scenario. -/
def c5Cfg : Config := ⟨false, .sha256, true, []⟩

/-- A source file inside a subdirectory, for the C5 scenario. -/
def c5File : SourceFile := ⟨"sub/b.txt", 5000, 1, [9], true⟩

/-- Compression enabled for the C6 counterexample run. -/
def c6Cfg : Config := ⟨true, .sha256, false, []⟩

/-- The single large source file of the C6 counterexample run. -/
def c6File : SourceFile := ⟨"big.bin", 2000, 1, [7], true⟩

/-- The small (1000-byte) record whose artifact the C9 counterexample
tracks: with compression enabled it is stored uncompressed at `a.gz`. -/
def c9Small : FileHash := ⟨"a.gz", 1000, 1, md5Hex [5], sha256Hex [5]⟩

/-- Reading back the path just written yields the written content. -/
theorem lookup_write_self (fs : Fs) (p : String) (c : Content) :
    (fs.write p c).lookup p = some c := by
  simp [Fs.lookup, Fs.write, List.find?]

/-- Writing one path leaves every other path unchanged. -/
theorem lookup_write_ne (fs : Fs) (p q : String) (c : Content) (h : q ≠ p) :
    (fs.write p c).lookup q = fs.lookup q := by
  simp [Fs.lookup, Fs.write, List.find?, beq_eq_false_iff_ne.mpr (Ne.symm h)]

/-- Creating directories does not change any file. -/
theorem lookup_mkdirParents (fs : Fs) (d p : String) :
    (fs.mkdirParents d).lookup p = fs.lookup p := rfl

/-- Entries whose key was filtered away are no longer found. -/
theorem find?_key_filter_self (l : List (String × Content)) (p : String) :
    (l.filter (fun e => e.1 != p)).find? (fun e => e.1 == p) = none := by
  induction l with
  | nil => rfl
  | cons e rest ih =>
    by_cases he : e.1 = p
    · rw [List.filter_cons_of_neg (by simp [he])]
      exact ih
    · rw [List.filter_cons_of_pos (by simp [he])]
      rw [List.find?_cons_of_neg _ (by simp [he])]
      exact ih

/-- Filtering out one key does not affect the search for another key. -/
theorem find?_key_filter_ne (l : List (String × Content)) (p q : String)
    (h : q ≠ p) :
    (l.filter (fun e => e.1 != p)).find? (fun e => e.1 == q)
      = l.find? (fun e => e.1 == q) := by
  induction l with
  | nil => rfl
  | cons e rest ih =>
    by_cases he : e.1 = p
    · rw [List.filter_cons_of_neg (by simp [he])]
      rw [List.find?_cons_of_neg _ (by simp [he, Ne.symm h])]
      exact ih
    · rw [List.filter_cons_of_pos (by simp [he])]
      by_cases hq : e.1 = q
      · rw [List.find?_cons_of_pos _ (by simp [hq]), List.find?_cons_of_pos _ (by simp [hq])]
      · rw [List.find?_cons_of_neg _ (by simp [hq]), List.find?_cons_of_neg _ (by simp [hq])]
        exact ih

/-- After unlinking a path, reading it fails. -/
theorem lookup_unlink_self (fs : Fs) (p : String) :
    (fs.unlink p).lookup p = none := by
  simp only [Fs.lookup, Fs.unlink]
  rw [find?_key_filter_self]
  rfl

/-- Unlinking one path leaves every other path unchanged. -/
theorem lookup_unlink_ne (fs : Fs) (p q : String) (h : q ≠ p) :
    (fs.unlink p).lookup q = fs.lookup q := by
  simp only [Fs.lookup, Fs.unlink]
  rw [find?_key_filter_ne _ _ _ h]

/-- A path absent before an unlink is still absent after it. -/
theorem lookup_unlink_none (fs : Fs) (p q : String) (h : fs.lookup q = none) :
    (fs.unlink p).lookup q = none := by
  by_cases hqp : q = p
  · subst hqp; exact lookup_unlink_self fs q
  · rw [lookup_unlink_ne fs p q hqp]; exact h

/-- In an empty tree every read fails. -/
theorem lookup_files_nil (fs : Fs) (h : fs.files = []) (p : String) :
    fs.lookup p = none := by
  simp [Fs.lookup, h]

/-- Appending the compression suffix never returns the same path. -/
theorem withGz_ne (p : String) : withGz p ≠ p := by
  intro h
  have hlen := congrArg String.length h
  rw [withGz, String.length_append] at hlen
  have h3 : ".gz".length = 3 := rfl
  omega

/-- `_backup_file` leaves the tree in the written state in every outcome:
parent directories plus the artifact (compressed at the suffixed path for
large files under compression, the plain copy otherwise). -/
theorem backupFile_fs (compress : Bool) (alg : Alg) (h : FileHash) (c : Content)
    (fs : Fs) :
    (backupFile compress false alg h c fs).fs =
      (fs.mkdirParents h.path).write
        (if compress = true ∧ compressThreshold < h.size then withGz h.path else h.path)
        (if compress = true ∧ compressThreshold < h.size then gzipCompress c else c) := by
  unfold backupFile
  rw [if_neg (by decide : ¬((false : Bool) = true))]
  dsimp only
  split
  · rfl
  · split <;> split <;> rfl

/-- A non-dry-run copy that is not gzip-compressed (compression disabled,
or size at most the threshold) writes the source bytes at the plain path
and passes its own digest check whenever the record's digests were
computed from those bytes. -/
theorem backupFile_small_ok (compress : Bool) (alg : Alg) (h : FileHash) (c : Content)
    (fs : Fs) (hnb : ¬(compress = true ∧ compressThreshold < h.size))
    (hmd : h.md5 = md5Hex c) (hsh : h.sha256 = sha256Hex c) :
    backupFile compress false alg h c fs =
      { fs := (fs.mkdirParents h.path).write h.path c, ok := true, errors := [] } := by
  unfold backupFile
  rw [if_neg (by decide : ¬((false : Bool) = true))]
  dsimp only
  rw [if_neg hnb, if_neg hnb, ite_self]
  rw [lookup_write_self]
  cases alg <;> simp [calculateHash, hmd, hsh]

/-- A non-dry-run gzip-compressed copy into a tree holding nothing at the
plain path writes the compressed artifact at the suffixed path and then
fails: the digest check reads the plain path, which does not exist. -/
theorem backupFile_big_fails (compress : Bool) (alg : Alg) (h : FileHash) (c : Content)
    (fs : Fs) (hb : compress = true ∧ compressThreshold < h.size)
    (hnone : fs.lookup h.path = none) :
    backupFile compress false alg h c fs =
      { fs := (fs.mkdirParents h.path).write (withGz h.path) (gzipCompress c),
        ok := false, errors := ["Backup failed for " ++ h.path] } := by
  unfold backupFile
  rw [if_neg (by decide : ¬((false : Bool) = true))]
  dsimp only
  rw [if_pos hb, if_pos hb, if_neg (by simp [hb.1])]
  rw [lookup_write_ne _ _ _ _ (Ne.symm (withGz_ne h.path)), lookup_mkdirParents, hnone]

/-- The copy phase returns one boolean result per submitted task. -/
theorem copyPhase_results_length (compress dryRun : Bool) (alg : Alg)
    (items : List (FileHash × Content)) :
    ∀ fs : Fs, ((copyPhase compress dryRun alg items fs).2.1).length = items.length := by
  induction items with
  | nil => intro fs; rfl
  | cons hc rest ih =>
    intro fs
    obtain ⟨h, c⟩ := hc
    simp [copyPhase, ih]

/-- When a non-dry-run copy phase over distinct paths, with records whose
digests were computed from the paired contents, starting from a tree
holding none of those paths, appends no error, then every record's plain
destination path holds exactly its source content afterwards, and every
other path is untouched. -/
theorem copyPhase_clean (compress : Bool) (alg : Alg)
    (items : List (FileHash × Content)) :
    ∀ fs : Fs,
      (items.map (fun rc => rc.1.path)).Nodup →
      (∀ rc ∈ items, rc.1.md5 = md5Hex rc.2 ∧ rc.1.sha256 = sha256Hex rc.2) →
      (∀ rc ∈ items, fs.lookup rc.1.path = none) →
      (copyPhase compress false alg items fs).2.2 = [] →
      (∀ rc ∈ items,
        (copyPhase compress false alg items fs).1.lookup rc.1.path = some rc.2) ∧
      (∀ p : String, (∀ rc ∈ items, rc.1.path ≠ p) →
        (copyPhase compress false alg items fs).1.lookup p = fs.lookup p) := by
  induction items with
  | nil =>
    intro fs _ _ _ _
    refine ⟨fun rc hrc => absurd hrc (List.not_mem_nil rc), fun p _ => rfl⟩
  | cons hc rest ih =>
    intro fs hnd hdig hnone herr
    obtain ⟨h, c⟩ := hc
    by_cases hb : compress = true ∧ compressThreshold < h.size
    · exfalso
      have hfst : fs.lookup h.path = none := hnone _ (List.mem_cons_self _ _)
      have hbf := backupFile_big_fails compress alg h c fs hb hfst
      simp [copyPhase, hbf] at herr
    · have hdig1 := hdig _ (List.mem_cons_self _ _)
      have hbf := backupFile_small_ok compress alg h c fs hb hdig1.1 hdig1.2
      simp only [copyPhase, hbf, List.nil_append] at herr ⊢
      rw [List.map_cons] at hnd
      have hndc := List.nodup_cons.mp hnd
      have hhn : ∀ rc ∈ rest, rc.1.path ≠ h.path := by
        intro rc hrc hpe
        exact hndc.1 (hpe ▸ List.mem_map_of_mem _ hrc)
      have hnoner : ∀ rc ∈ rest,
          ((fs.mkdirParents h.path).write h.path c).lookup rc.1.path = none := by
        intro rc hrc
        rw [lookup_write_ne _ _ _ _ (hhn rc hrc), lookup_mkdirParents]
        exact hnone _ (List.mem_cons_of_mem _ hrc)
      obtain ⟨ih1, ih2⟩ := ih ((fs.mkdirParents h.path).write h.path c) hndc.2
        (fun rc hrc => hdig _ (List.mem_cons_of_mem _ hrc)) hnoner herr
      constructor
      · intro rc hrc
        rcases List.mem_cons.mp hrc with hrc | hrc
        · subst hrc
          rw [ih2 _ hhn, lookup_write_self]
      
        · exact ih1 rc hrc
      · intro p hp
        rw [ih2 p (fun rc hrc => hp rc (List.mem_cons_of_mem _ hrc))]
        rw [lookup_write_ne _ _ _ _ (Ne.symm (hp _ (List.mem_cons_self _ _))), lookup_mkdirParents]

/-- The digest phase emits records for a subsequence of the scanned
files, each keeping its relative path. -/
theorem hashPhase_paths_sublist (ex : List String) (root : String)
    (files : List SourceFile) :
    ((hashPhase ex root files).1.map (fun rc => rc.1.path)).Sublist
      (files.map SourceFile.path) := by
  induction files with
  | nil => simp [hashPhase]
  | cons f rest ih =>
    simp only [hashPhase, List.map_cons]
    by_cases hr : f.readable = false
    · simp only [hashFile, if_pos hr]
      exact ih.cons _
    · by_cases hex : shouldExclude ex (joinPath root f.path) = true
      · simp only [hashFile, if_neg hr, if_pos hex]
        exact ih.cons _
      · simp only [hashFile, if_neg hr, if_neg hex, List.map_cons]
        exact ih.cons₂ _

/-- Every record the digest phase emits carries the digests of the
content it is paired with. -/
theorem hashPhase_digests (ex : List String) (root : String)
    (files : List SourceFile) :
    ∀ rc ∈ (hashPhase ex root files).1,
      rc.1.md5 = md5Hex rc.2 ∧ rc.1.sha256 = sha256Hex rc.2 := by
  induction files with
  | nil => intro rc hrc; exact absurd hrc (List.not_mem_nil rc)
  | cons f rest ih =>
    intro rc hrc
    simp only [hashPhase] at hrc
    by_cases hr : f.readable = false
    · simp only [hashFile, if_pos hr] at hrc
      exact ih rc hrc
    · by_cases hex : shouldExclude ex (joinPath root f.path) = true
      · simp only [hashFile, if_neg hr, if_pos hex] at hrc
        exact ih rc hrc
      · simp only [hashFile, if_neg hr, if_neg hex] at hrc
        rcases List.mem_cons.mp hrc with hrc | hrc
        · subst hrc
          exact ⟨rfl, rfl⟩
        · exact ih rc hrc

/-- With an empty previous table every file is classified as changed. -/
theorem needsBackup_nil (alg : Alg) (h : FileHash) : needsBackup alg [] h = true := rfl

/-- Unlinking one path does not change the existence of another. -/
theorem pathExists_unlink_ne (fs : Fs) (p q : String) (h : q ≠ p) :
    (fs.unlink p).pathExists q = fs.pathExists q := by
  simp only [Fs.pathExists, lookup_unlink_ne fs p q h]

/-- The pruner never touches a path that is not the (possibly
suffixed) target of one of the stale paths (previous-table paths absent
from the current run): paths still current are skipped without any
deletion, so only the removed set matters. -/
theorem prune_frame (compress dryRun : Bool) (unlinkOk : String → Bool)
    (current : List String) (p : String) :
    ∀ (prev : List String) (fs : Fs),
      (∀ q ∈ stalePaths current prev, pruneTarget compress q ≠ p) →
      (removeDeletedFiles compress dryRun unlinkOk current prev fs).fs.lookup p
        = fs.lookup p := by
  intro prev
  induction prev with
  | nil => intro fs _; rfl
  | cons a rest ih =>
    intro fs hp
    by_cases hcur : current.contains a = true
    · have hmem : a ∈ current := by simpa using hcur
      have hst : stalePaths current (a :: rest) = stalePaths current rest := by
        simp [stalePaths, List.filter_cons, hmem]
      rw [hst] at hp
      simp only [removeDeletedFiles, if_pos hcur]
      exact ih fs hp
    · have hmem : a ∉ current := by simpa using hcur
      have hst : stalePaths current (a :: rest) = a :: stalePaths current rest := by
        simp [stalePaths, List.filter_cons, hmem]
      rw [hst] at hp
      have hpt : ∀ q ∈ stalePaths current rest, pruneTarget compress q ≠ p :=
        fun q hq => hp q (List.mem_cons_of_mem _ hq)
      simp only [removeDeletedFiles, if_neg hcur]
      split
      · split
        · rw [ih _ hpt]
          exact lookup_unlink_ne fs (pruneTarget compress a) p
            (Ne.symm (hp a (List.mem_cons_self _ _)))
        · exact ih fs hpt
      · exact ih fs hpt

/-- The copy-loop accumulator computes the length and the size-sum of
the successfully copied records. -/
theorem tally_eq_spec (items : List (FileHash × Content)) :
    ∀ bs : List Bool, tally items bs =
      ((specBackedUpRecords items bs).length,
        ((specBackedUpRecords items bs).map FileHash.size).sum) := by
  induction items with
  | nil => intro bs; cases bs <;> rfl
  | cons hc rest ih =>
    intro bs
    obtain ⟨h, c⟩ := hc
    cases bs with
    | nil => rfl
    | cons b bs' =>
      cases b <;> simp [tally, specBackedUpRecords, ih bs', Nat.add_comm]

/-- Over result lists of matching length, the number of backed-up
records is the number of `true` results. -/
theorem specBackedUp_length_eq_count (items : List (FileHash × Content)) :
    ∀ bs : List Bool, bs.length = items.length →
      (specBackedUpRecords items bs).length = bs.count true := by
  induction items with
  | nil =>
    intro bs hlen
    rw [List.length_eq_zero.mp hlen]
    rfl
  | cons hc rest ih =>
    intro bs hlen
    obtain ⟨h, c⟩ := hc
    cases bs with
    | nil => simp at hlen
    | cons b bs' =>
      simp only [List.length_cons, Nat.succ.injEq] at hlen
      cases b <;> simp [specBackedUpRecords, List.count_cons, ih bs' hlen]

/-- A boolean list is split by its counts of `true` and `false`. -/
theorem count_true_add_count_false (bs : List Bool) :
    bs.count true + bs.count false = bs.length := by
  induction bs with
  | nil => rfl
  | cons b rest ih =>
    cases b <;> simp [List.count_cons] <;> omega

/-- Report lines of the tail survive prepending one more table entry. -/
theorem verifyBackup_errors_mono (fs : Fs) (h0 : FileHash) (rest : List FileHash)
    (e : String) (he : e ∈ (verifyBackup rest fs).2) :
    e ∈ (verifyBackup (h0 :: rest) fs).2 := by
  simp only [verifyBackup]
  cases hl : fs.lookup h0.path with
  | none => exact List.mem_cons_of_mem _ he
  | some c0 =>
    dsimp only
    by_cases hmm0 : md5Hex c0 ≠ h0.md5 ∨ sha256Hex c0 ≠ h0.sha256
    · rw [if_pos hmm0]
      exact List.mem_cons_of_mem _ he
    · rw [if_neg hmm0]
      exact he

/-- `verify_backup` succeeds exactly when every table entry's artifact
exists and re-digests to the recorded md5 and sha256. -/
theorem verifyBackup_true_iff (fs : Fs) : ∀ hashesData : List FileHash,
    (verifyBackup hashesData fs).1 = true ↔
      ∀ h ∈ hashesData, ∃ c, fs.lookup h.path = some c ∧
        md5Hex c = h.md5 ∧ sha256Hex c = h.sha256 := by
  intro hashesData
  induction hashesData with
  | nil => simp [verifyBackup]
  | cons h0 rest ih =>
    simp only [verifyBackup]
    cases hl : fs.lookup h0.path with
    | none =>
      dsimp only
      constructor
      · intro hfalse; exact Bool.noConfusion hfalse
      · intro hall
        obtain ⟨c, hc, _⟩ := hall h0 (List.mem_cons_self _ _)
        rw [hl] at hc; cases hc
    | some c =>
      dsimp only
      by_cases hmm : md5Hex c ≠ h0.md5 ∨ sha256Hex c ≠ h0.sha256
      · rw [if_pos hmm]
        constructor
        · intro hfalse; exact Bool.noConfusion hfalse
        · intro hall
          obtain ⟨c', hc', hmd', hsh'⟩ := hall h0 (List.mem_cons_self _ _)
          rw [hl] at hc'
          injection hc' with hcc
          subst hcc
          rcases hmm with hmm | hmm
          · exact absurd hmd' hmm
          · exact absurd hsh' hmm
      · rw [if_neg hmm]
        push_neg at hmm
        constructor
        · intro htail h hh
          rcases List.mem_cons.mp hh with hh | hh
          · subst hh; exact ⟨c, hl, hmm.1, hmm.2⟩
          · exact ih.mp htail h hh
        · intro hall
          exact ih.mpr (fun h hh => hall h (List.mem_cons_of_mem _ hh))

/-- Every missing entry is reported as `Missing:` and every mismatched
entry as `Corrupted:`. -/
theorem verifyBackup_reports (fs : Fs) :
    ∀ hashesData : List FileHash, ∀ h ∈ hashesData,
      (fs.lookup h.path = none →
        ("Missing: " ++ h.path) ∈ (verifyBackup hashesData fs).2) ∧
      (∀ c, fs.lookup h.path = some c →
        (md5Hex c ≠ h.md5 ∨ sha256Hex c ≠ h.sha256) →
        ("Corrupted: " ++ h.path) ∈ (verifyBackup hashesData fs).2) := by
  intro hashesData
  induction hashesData with
  | nil => intro h hh; exact absurd hh (List.not_mem_nil h)
  | cons h0 rest ih =>
    intro h hh
    rcases List.mem_cons.mp hh with hh | hh
    · subst hh
      constructor
      · intro hnone
        simp only [verifyBackup]
        rw [hnone]
        exact List.mem_cons_self _ _
      · intro c hc hmm
        simp only [verifyBackup]
        rw [hc]
        dsimp only
        rw [if_pos hmm]
        exact List.mem_cons_self _ _
    · have ihh := ih h hh
      constructor
      · intro hnone
        exact verifyBackup_errors_mono fs h0 rest _ (ihh.1 hnone)
      · intro c hc hmm
        exact verifyBackup_errors_mono fs h0 rest _ (ihh.2 c hc hmm)

/-- `current_hashes` is exactly the digest phase's record list. -/
theorem run_currentHashes (cfg : Config) (root : String) (files : List SourceFile)
    (destFs : Fs) :
    (run cfg root files destFs).currentHashes
      = (hashPhase cfg.excludePatterns root files).1 := rfl

/-- `files_to_backup` filters the current records through
`_needs_backup` against the (empty) previous table. -/
theorem run_filesToBackup_def (cfg : Config) (root : String) (files : List SourceFile)
    (destFs : Fs) :
    (run cfg root files destFs).filesToBackup
      = (run cfg root files destFs).currentHashes.filter
          (fun rc => needsBackup cfg.algorithm [] rc.1) := rfl

/-- The per-task copy results of the run. -/
theorem run_copyResults_def (cfg : Config) (root : String) (files : List SourceFile)
    (destFs : Fs) :
    (run cfg root files destFs).copyResults
      = (copyPhase cfg.compress cfg.dryRun cfg.algorithm
          (run cfg root files destFs).filesToBackup destFs).2.1 := rfl

/-- `files_backed_up` is accumulated by the copy completion loop. -/
theorem run_filesBackedUp_def (cfg : Config) (root : String) (files : List SourceFile)
    (destFs : Fs) :
    (run cfg root files destFs).filesBackedUp
      = (tally (run cfg root files destFs).filesToBackup
          (run cfg root files destFs).copyResults).1 := rfl

/-- `files_skipped = len(current_hashes) - len(files_to_backup)`. -/
theorem run_filesSkipped_def (cfg : Config) (root : String) (files : List SourceFile)
    (destFs : Fs) :
    (run cfg root files destFs).filesSkipped
      = (run cfg root files destFs).currentHashes.length
        - (run cfg root files destFs).filesToBackup.length := rfl

/-- `bytes_transferred` is accumulated by the copy completion loop. -/
theorem run_bytesTransferred_def (cfg : Config) (root : String) (files : List SourceFile)
    (destFs : Fs) :
    (run cfg root files destFs).bytesTransferred
      = (tally (run cfg root files destFs).filesToBackup
          (run cfg root files destFs).copyResults).2 := rfl

/-- With the previous table never loaded, the pruner iterates over
nothing and `files_removed` is always zero. -/
theorem run_filesRemoved_zero (cfg : Config) (root : String) (files : List SourceFile)
    (destFs : Fs) :
    (run cfg root files destFs).filesRemoved = 0 := rfl

/-- The run's error list is the digest-phase errors followed by the
copy-phase errors (the prune loop over the empty table adds none). -/
theorem run_errors_def (cfg : Config) (root : String) (files : List SourceFile)
    (destFs : Fs) :
    (run cfg root files destFs).errors
      = (hashPhase cfg.excludePatterns root files).2
        ++ (copyPhase cfg.compress cfg.dryRun cfg.algorithm
              (run cfg root files destFs).filesToBackup destFs).2.2
        ++ [] := rfl

/-- The final destination tree is the copy phase's output (the prune
loop over the empty previous table changes nothing). -/
theorem run_fs_def (cfg : Config) (root : String) (files : List SourceFile)
    (destFs : Fs) :
    (run cfg root files destFs).fs
      = (copyPhase cfg.compress cfg.dryRun cfg.algorithm
          (run cfg root files destFs).filesToBackup destFs).1 := rfl

/-- The digest table is persisted exactly when not in dry-run mode. -/
theorem run_savedTable_def (cfg : Config) (root : String) (files : List SourceFile)
    (destFs : Fs) :
    (run cfg root files destFs).savedTable
      = (if cfg.dryRun = true then none
         else some ((run cfg root files destFs).currentHashes.map (fun rc => rc.1))) := rfl

/-- Because `previous_hashes` is never populated, every digested record
is selected for copying, on every run. -/
theorem run_filesToBackup_all (cfg : Config) (root : String) (files : List SourceFile)
    (destFs : Fs) :
    (run cfg root files destFs).filesToBackup
      = (run cfg root files destFs).currentHashes := by
  rw [run_filesToBackup_def]
  exact List.filter_eq_self.mpr (fun rc _ => needsBackup_nil _ _)

/-- Claim C6 (amended): at the end of every run,
`files_backed_up + files_skipped` plus the number of failed copy attempts
equals the number of successfully digested records; the stated invariant
without the failure term holds exactly when no copy attempt fails. -/
theorem c6_run_count_invariant (cfg : Config) (root : String) (files : List SourceFile)
    (destFs : Fs) :
    (run cfg root files destFs).filesBackedUp
      + (run cfg root files destFs).filesSkipped
      + (run cfg root files destFs).copyResults.count false
      = (run cfg root files destFs).currentHashes.length := by
  have hlen : (run cfg root files destFs).copyResults.length
      = (run cfg root files destFs).filesToBackup.length := by
    rw [run_copyResults_def]
    exact copyPhase_results_length _ _ _ _ _
  have h1 : (run cfg root files destFs).filesBackedUp
      = (run cfg root files destFs).copyResults.count true := by
    rw [run_filesBackedUp_def, tally_eq_spec]
    exact specBackedUp_length_eq_count _ _ hlen
  have h2 := count_true_add_count_false (run cfg root files destFs).copyResults
  have h3 : (run cfg root files destFs).filesToBackup.length
      ≤ (run cfg root files destFs).currentHashes.length := by
    rw [run_filesToBackup_def]
    exact List.length_filter_le _ _
  rw [h1, run_filesSkipped_def]
  omega

/-- Claim C8: `bytes_transferred` is the sum of the recorded source
sizes of exactly the records counted as backed up (`files_backed_up` is
their number): it is accumulated from `file_hash.size`, the size recorded
at scan time, never from the bytes physically written, also when
compression is enabled. -/
theorem c8_bytes_transferred (cfg : Config) (root : String) (files : List SourceFile)
    (destFs : Fs) :
    (run cfg root files destFs).filesBackedUp
      = (specBackedUpRecords (run cfg root files destFs).filesToBackup
          (run cfg root files destFs).copyResults).length
    ∧ (run cfg root files destFs).bytesTransferred
      = ((specBackedUpRecords (run cfg root files destFs).filesToBackup
          (run cfg root files destFs).copyResults).map FileHash.size).sum := by
  constructor
  · rw [run_filesBackedUp_def, tally_eq_spec]
  · rw [run_bytesTransferred_def, tally_eq_spec]

/-- Claim C7: the pruner walks exactly the set difference (previous paths
absent from the current run); in dry-run mode it deletes nothing; outside
dry-run, when the targeted artifacts (with the compression suffix appended
when compression is enabled) exist and are distinct, it deletes exactly
those whose unlink succeeds, records one error per failed deletion while
continuing with the remaining ones, returns the number of successful
deletions, and touches no other path. -/
theorem removeDeletedFiles_spec (compress : Bool) (unlinkOk : String → Bool)
    (current : List String) :
    ∀ (prev : List String) (fs : Fs),
      ((removeDeletedFiles compress true unlinkOk current prev fs).fs = fs)
      ∧ (((stalePaths current prev).map (pruneTarget compress)).Nodup →
         (∀ p ∈ stalePaths current prev,
            fs.pathExists (pruneTarget compress p) = true) →
         (removeDeletedFiles compress false unlinkOk current prev fs).removed
             = ((stalePaths current prev).filter
                 (fun p => unlinkOk (pruneTarget compress p))).length
         ∧ (removeDeletedFiles compress false unlinkOk current prev fs).errors
             = ((stalePaths current prev).filter
                 (fun p => !(unlinkOk (pruneTarget compress p)))).map
                 (fun p => "Cannot remove " ++ p)
         ∧ (∀ p ∈ stalePaths current prev,
              unlinkOk (pruneTarget compress p) = true →
              (removeDeletedFiles compress false unlinkOk current prev fs).fs.lookup
                (pruneTarget compress p) = none)
         ∧ (∀ q : String,
              (∀ p ∈ stalePaths current prev, pruneTarget compress p ≠ q) →
              (removeDeletedFiles compress false unlinkOk current prev fs).fs.lookup q
                = fs.lookup q)) := by
  intro prev
  induction prev with
  | nil =>
    intro fs
    exact ⟨rfl, fun _ _ => ⟨rfl, rfl, fun p hp _ => absurd hp (List.not_mem_nil p),
      fun q _ => rfl⟩⟩
  | cons a rest ih =>
    intro fs
    by_cases hcur : current.contains a = true
    · have hmem : a ∈ current := by simpa using hcur
      have hst : stalePaths current (a :: rest) = stalePaths current rest := by
        simp [stalePaths, List.filter_cons, hmem]
      constructor
      · simp only [removeDeletedFiles, if_pos hcur]
        exact (ih fs).1
      · rw [hst]
        intro hnd hex
        have h2 := (ih fs).2 hnd hex
        simp only [removeDeletedFiles, if_pos hcur]
        exact h2
    · have hmem : a ∉ current := by simpa using hcur
      have hst : stalePaths current (a :: rest) = a :: stalePaths current rest := by
        simp [stalePaths, List.filter_cons, hmem]
      constructor
      · simp only [removeDeletedFiles, if_neg hcur]
        rw [if_neg (by simp)]
        exact (ih fs).1
      · rw [hst]
        intro hnd hex
        rw [List.map_cons] at hnd
        obtain ⟨hnd1, hnd2⟩ := List.nodup_cons.mp hnd
        have hexa : fs.pathExists (pruneTarget compress a) = true :=
          hex a (List.mem_cons_self _ _)
        have hta : ∀ p ∈ stalePaths current rest,
            pruneTarget compress p ≠ pruneTarget compress a := by
          intro p hp hpe
          exact hnd1 (hpe ▸ List.mem_map_of_mem _ hp)
        by_cases hok : unlinkOk (pruneTarget compress a) = true
        · have hex' : ∀ p ∈ stalePaths current rest,
              (fs.unlink (pruneTarget compress a)).pathExists
                (pruneTarget compress p) = true := by
            intro p hp
            rw [pathExists_unlink_ne _ _ _ (hta p hp)]
            exact hex p (List.mem_cons_of_mem _ hp)
          obtain ⟨ihrem, iherr, ihnone, ihframe⟩ :=
            (ih (fs.unlink (pruneTarget compress a))).2 hnd2 hex'
          have hred : removeDeletedFiles compress false unlinkOk current (a :: rest) fs
              = { removeDeletedFiles compress false unlinkOk current rest
                    (fs.unlink (pruneTarget compress a)) with
                  removed := (removeDeletedFiles compress false unlinkOk current rest
                    (fs.unlink (pruneTarget compress a))).removed + 1 } := by
            simp only [removeDeletedFiles, if_neg hcur]
            rw [if_pos (by simp [hexa]), if_pos hok]
          rw [hred]
          dsimp only
          refine ⟨?_, ?_, ?_, ?_⟩
          · rw [List.filter_cons_of_pos (by simpa using hok), List.length_cons, ihrem]
          · rw [List.filter_cons_of_neg (by simp [hok]), iherr]
          · intro p hp hpok
            rcases List.mem_cons.mp hp with hp | hp
            · subst hp
              rw [ihframe _ hta]
              exact lookup_unlink_self fs _
            · exact ihnone p hp hpok
          · intro q hq
            rw [ihframe q (fun p hp => hq p (List.mem_cons_of_mem _ hp))]
            exact lookup_unlink_ne fs _ q (Ne.symm (hq a (List.mem_cons_self _ _)))
        · obtain ⟨ihrem, iherr, ihnone, ihframe⟩ := (ih fs).2 hnd2
            (fun p hp => hex p (List.mem_cons_of_mem _ hp))
          have hred : removeDeletedFiles compress false unlinkOk current (a :: rest) fs
              = { removeDeletedFiles compress false unlinkOk current rest fs with
                  errors := ("Cannot remove " ++ a) ::
                    (removeDeletedFiles compress false unlinkOk current rest fs).errors } := by
            simp only [removeDeletedFiles, if_neg hcur]
            rw [if_pos (by simp [hexa]), if_neg hok]
          rw [hred]
          dsimp only
          refine ⟨?_, ?_, ?_, ?_⟩
          · rw [List.filter_cons_of_neg (by simpa using hok), ihrem]
          · rw [List.filter_cons_of_pos (by simp [hok]), List.map_cons, iherr]
          · intro p hp hpok
            rcases List.mem_cons.mp hp with hp | hp
            · subst hp
              exact absurd hpok hok
            · exact ihnone p hp hpok
          · intro q hq
            exact ihframe q (fun p hp => hq p (List.mem_cons_of_mem _ hp))

/-- Claim C4 (amended): after an error-free non-dry-run backup of files
with distinct relative paths into an initially empty destination, for any
configuration (compression included), `verify_backup` on the persisted
digest table returns success; and in general `verify_backup` succeeds iff
every persisted entry's destination artifact exists and its recomputed md5
and sha256 both equal the recorded values, reporting each missing and each
mismatched path.  (`verifyBackup` is a pure function of the table and the
tree: it mutates no state by construction.) -/
theorem c4_verify_round_trip (cfg : Config) (root : String) (files : List SourceFile)
    (destFs : Fs) (hnd : (files.map SourceFile.path).Nodup)
    (hdry : cfg.dryRun = false) (hempty : destFs.files = [])
    (herr : (run cfg root files destFs).errors = []) :
    (verifyBackup ((run cfg root files destFs).savedTable.getD [])
        (run cfg root files destFs).fs).1 = true
    ∧ (∀ (table : List FileHash) (fs : Fs),
        ((verifyBackup table fs).1 = true ↔
          ∀ h ∈ table, ∃ c, fs.lookup h.path = some c ∧
            md5Hex c = h.md5 ∧ sha256Hex c = h.sha256)
        ∧ ∀ h ∈ table,
            (fs.lookup h.path = none →
              ("Missing: " ++ h.path) ∈ (verifyBackup table fs).2)
            ∧ (∀ c, fs.lookup h.path = some c →
                (md5Hex c ≠ h.md5 ∨ sha256Hex c ≠ h.sha256) →
                ("Corrupted: " ++ h.path) ∈ (verifyBackup table fs).2)) := by
  refine ⟨?_, fun table fs => ⟨verifyBackup_true_iff fs table, verifyBackup_reports fs table⟩⟩
  have herr2 : (copyPhase cfg.compress cfg.dryRun cfg.algorithm
      (run cfg root files destFs).filesToBackup destFs).2.2 = [] := by
    rw [run_errors_def] at herr
    rcases List.append_eq_nil.mp herr with ⟨h12, _⟩
    exact (List.append_eq_nil.mp h12).2
  have hnodup : (((run cfg root files destFs).currentHashes).map
      (fun rc => rc.1.path)).Nodup := by
    rw [run_currentHashes]
    exact (hashPhase_paths_sublist cfg.excludePatterns root files).nodup hnd
  have hdig : ∀ rc ∈ (run cfg root files destFs).currentHashes,
      rc.1.md5 = md5Hex rc.2 ∧ rc.1.sha256 = sha256Hex rc.2 := by
    rw [run_currentHashes]
    exact hashPhase_digests cfg.excludePatterns root files
  have hnone : ∀ rc ∈ (run cfg root files destFs).currentHashes,
      destFs.lookup rc.1.path = none :=
    fun rc _ => lookup_files_nil destFs hempty rc.1.path
  have herr3 : (copyPhase cfg.compress false cfg.algorithm
      (run cfg root files destFs).currentHashes destFs).2.2 = [] := by
    rw [← hdry, ← run_filesToBackup_all]
    exact herr2
  obtain ⟨hcc1, -⟩ := copyPhase_clean cfg.compress cfg.algorithm
    (run cfg root files destFs).currentHashes destFs hnodup hdig hnone herr3
  have hfs : (run cfg root files destFs).fs
      = (copyPhase cfg.compress false cfg.algorithm
          (run cfg root files destFs).currentHashes destFs).1 := by
    rw [run_fs_def, run_filesToBackup_all, hdry]
  have hsaved : (run cfg root files destFs).savedTable.getD []
      = (run cfg root files destFs).currentHashes.map (fun rc => rc.1) := by
    rw [run_savedTable_def, hdry]
    rfl
  rw [hsaved, hfs, verifyBackup_true_iff]
  intro h hh
  obtain ⟨rc, hrc, hrc2⟩ := List.mem_map.mp hh
  subst hrc2
  exact ⟨rc.2, hcc1 rc hrc, (hdig rc hrc).1.symm, (hdig rc hrc).2.symm⟩

/-- A substring of `s` is a substring of any extension `s ++ t`. -/
theorem isSubstring_append (pat s t : String) (h : isSubstring pat s = true) :
    isSubstring pat (s ++ t) = true := by
  have hinf : pat.toList <:+: s.toList := of_decide_eq_true h
  apply decide_eq_true
  obtain ⟨u, v, huv⟩ := hinf
  refine ⟨u, v ++ t.toList, ?_⟩
  have hdata : (s ++ t).toList = s.toList ++ t.toList := rfl
  rw [hdata, ← huv]
  simp [List.append_assoc]

/-- One matching configured pattern suffices for exclusion. -/
theorem shouldExclude_of_mem (ex : List String) (pat s : String)
    (hmem : pat ∈ ex) (h : isSubstring pat s = true) :
    shouldExclude ex s = true := by
  simp only [shouldExclude, List.any_eq_true]
  exact ⟨pat, hmem, h⟩

/-- A pattern matching a directory's full path also matches every path
below it. -/
theorem shouldExclude_join (ex : List String) (pat root x : String)
    (hmem : pat ∈ ex) (h : isSubstring pat root = true) :
    shouldExclude ex (joinPath root x) = true := by
  apply shouldExclude_of_mem ex pat _ hmem
  exact isSubstring_append _ _ _ (isSubstring_append _ _ _ h)

/-- Claim C10 (amended): `_should_exclude` substring-matches the
configured patterns against the full path string; consequently, when some
exclusion pattern is a substring of the resolved source root and the root
is a directory, every file and directory is excluded and the candidate
list is empty; a source root that is itself a regular file, however, is
returned as the single candidate without any exclusion check. -/
theorem c10_exclusion_amended (ex : List String) (s pattern root : String)
    (t : Tree) (hmem : pattern ∈ ex) (hsub : isSubstring pattern root = true) :
    (shouldExclude ex s = true ↔ ∃ p ∈ ex, p.toList <:+: s.toList)
    ∧ collectFiles ex root (SourceRoot.dir t) = []
    ∧ collectFiles ex root SourceRoot.file = [root] := by
  refine ⟨?_, ?_, rfl⟩
  · simp only [shouldExclude, List.any_eq_true, isSubstring]
    constructor
    · rintro ⟨p, hp, hdec⟩
      exact ⟨p, hp, of_decide_eq_true hdec⟩
    · rintro ⟨p, hp, hinf⟩
      exact ⟨p, hp, decide_eq_true hinf⟩
  · show collectFrom ex root t = []
    cases t with
    | node fileNames subdirs =>
      have hf : (fileNames.filter
          (fun fn => !(shouldExclude ex (joinPath root fn)))) = [] := by
        apply List.filter_eq_nil_iff.mpr
        intro fn _
        simp [shouldExclude_join ex pattern root fn hmem hsub]
      have hs : collectSubdirs ex root subdirs = [] := by
        induction subdirs with
        | nil => rfl
        | cons d rest ih =>
          obtain ⟨name, t'⟩ := d
          simp only [collectSubdirs]
          rw [if_pos (shouldExclude_join ex pattern root name hmem hsub), ih]
          rfl
      simp only [collectFrom, hf, List.map_nil, List.nil_append, hs]

/-- Witness for the amended C10 theorem at a concrete pattern, root and
tree. -/
theorem c10_exclusion_amended_witness :
    ("/s" ∈ ["/s"]) ∧ isSubstring "/s" "/src" = true
    ∧ collectFiles ["/s"] "/src" (SourceRoot.dir (Tree.node ["f.txt"] [])) = [] :=
  ⟨by decide, by decide,
    (c10_exclusion_amended ["/s"] "x" "/s" "/src" (Tree.node ["f.txt"] [])
      (by decide) (by decide)).2.1⟩

/-- Counterexample to C10 as stated: with the exclusion pattern equal to
the resolved source root itself (hence a substring of it), a source root
that is a regular file still yields a non-empty candidate list. -/
theorem c10_file_root_counterexample :
    isSubstring "/src/a" "/src/a" = true
    ∧ "/src/a" ∈ ["/src/a"]
    ∧ collectFiles ["/src/a"] "/src/a" SourceRoot.file = ["/src/a"] :=
  ⟨by decide, by decide, rfl⟩

/-- Claim C9 (amended): with compression enabled, a file of at most 1024
bytes is written uncompressed at its plain destination path, and the
pruner (which unconditionally appends `.gz` to every path it targets)
never deletes that artifact as long as no removed (stale) path with `.gz`
appended coincides with the small file's relative path — previous-table
paths still present in the current run are skipped by the pruner, so they
cannot delete it even when they alias. -/
theorem c9_small_file_amended (alg : Alg) (h : FileHash) (c : Content) (fs : Fs)
    (hsmall : h.size ≤ compressThreshold) :
    (backupFile true false alg h c fs).fs.lookup h.path = some c
    ∧ ∀ (dryRun : Bool) (unlinkOk : String → Bool) (current prev : List String)
        (fs' : Fs) (p : String),
        (∀ q ∈ stalePaths current prev, withGz q ≠ p) →
        (removeDeletedFiles true dryRun unlinkOk current prev fs').fs.lookup p
          = fs'.lookup p := by
  constructor
  · have hnb : ¬(true = true ∧ compressThreshold < h.size) := by
      rintro ⟨-, hlt⟩
      omega
    rw [backupFile_fs, if_neg hnb, if_neg hnb]
    exact lookup_write_self _ _ _
  · intro dryRun unlinkOk current prev fs' p hq
    exact prune_frame true dryRun unlinkOk current p prev fs' (fun q hqm => hq q hqm)

/-- Witness for the amended C9 theorem: a concrete small file stored at
its plain path, and a concrete prune in which the retained path `a`
aliases the artifact `a.gz` of the removed small file — only the removed
path `a.gz` is stale, its target is `a.gz.gz`, and the artifact
survives. -/
theorem c9_small_file_amended_witness :
    ((1000 : Nat) ≤ compressThreshold)
    ∧ (backupFile true false .sha256 ⟨"b.txt", 1000, 1, md5Hex [3], sha256Hex [3]⟩
        [3] ⟨[], []⟩).fs.lookup "b.txt" = some [3]
    ∧ (∀ q ∈ stalePaths ["a"] ["a", "a.gz"], withGz q ≠ "a.gz")
    ∧ (removeDeletedFiles true false (fun _ => true) ["a"] ["a", "a.gz"]
        (Fs.mk [("a.gz", [5]), ("a", [9])] [])).fs.lookup "a.gz"
        = (Fs.mk [("a.gz", [5]), ("a", [9])] []).lookup "a.gz" :=
  ⟨by decide,
    (c9_small_file_amended .sha256 ⟨"b.txt", 1000, 1, md5Hex [3], sha256Hex [3]⟩
      [3] ⟨[], []⟩ (by decide)).1,
    by decide,
    (c9_small_file_amended .sha256 ⟨"b.txt", 1000, 1, md5Hex [3], sha256Hex [3]⟩
      [3] ⟨[], []⟩ (by decide)).2 false (fun _ => true) ["a"] ["a", "a.gz"]
      (Fs.mk [("a.gz", [5]), ("a", [9])] []) "a.gz" (by decide)⟩

/-- Counterexample to C9 as stated: the 1000-byte file `a.gz` is stored
uncompressed at the plain path `a.gz`, yet pruning the removed paths
`a` and `a.gz` deletes that artifact, because the target for stale `a`
is `a` plus `.gz`. -/
theorem c9_gz_alias_counterexample :
    (backupFile true false .sha256 c9Small [5] ⟨[], []⟩).fs.lookup "a.gz" = some [5]
    ∧ (removeDeletedFiles true false (fun _ => true) [] ["a", "a.gz"]
        (backupFile true false .sha256 c9Small [5] ⟨[], []⟩).fs).fs.lookup "a.gz"
        = none := by
  decide

/-- Witness for the C7 pruner theorem at a concrete table (stale `x` and
`y`, deletion of `y.gz` failing). -/
theorem removeDeletedFiles_spec_witness :
    ((stalePaths ["keep"] ["keep", "x", "y"]).map (pruneTarget true)).Nodup
    ∧ (∀ p ∈ stalePaths ["keep"] ["keep", "x", "y"],
        (Fs.mk [("x.gz", [1]), ("y.gz", [2])] []).pathExists (pruneTarget true p) = true)
    ∧ (removeDeletedFiles true false (fun u => u != "y.gz") ["keep"]
        ["keep", "x", "y"] (Fs.mk [("x.gz", [1]), ("y.gz", [2])] [])).removed
        = ((stalePaths ["keep"] ["keep", "x", "y"]).filter
            (fun p => (fun u => u != "y.gz") (pruneTarget true p))).length :=
  ⟨by decide, by decide,
    ((removeDeletedFiles_spec true (fun u => u != "y.gz") ["keep"]
      ["keep", "x", "y"] (Fs.mk [("x.gz", [1]), ("y.gz", [2])] [])).2
      (by decide) (by decide)).1⟩

/-- Witness for the amended C4 theorem: a concrete error-free run into an
empty destination whose persisted table then verifies. -/
theorem c4_verify_round_trip_witness :
    (([c4wFile].map SourceFile.path).Nodup)
    ∧ (run c4wCfg "/src" [c4wFile] ⟨[], []⟩).errors = []
    ∧ (verifyBackup ((run c4wCfg "/src" [c4wFile] ⟨[], []⟩).savedTable.getD [])
        (run c4wCfg "/src" [c4wFile] ⟨[], []⟩).fs).1 = true :=
  ⟨by decide, by decide,
    (c4_verify_round_trip c4wCfg "/src" [c4wFile] ⟨[], []⟩ (by decide) rfl rfl
      (by decide)).1⟩

/-- Counterexample to C4 as stated: with compression enabled and a
destination already holding `a` with the source content, backing up the
small `a.gz` and the large `a` completes with no error, yet
`verify_backup` fails — the compressed artifact of `a` overwrote the
artifact of `a.gz`. -/
theorem c4_verify_counterexample :
    (run c4xCfg "/src" c4xFiles c4xDest).errors = []
    ∧ (run c4xCfg "/src" c4xFiles c4xDest).savedTable.isSome = true
    ∧ (verifyBackup ((run c4xCfg "/src" c4xFiles c4xDest).savedTable.getD [])
        (run c4xCfg "/src" c4xFiles c4xDest).fs).1 = false := by
  decide

/-- Claim C2 (code-bug evidence): the first run persists the digest
table, but a second run over the unchanged tree — started from the first
run's destination — still reports one file backed up and zero skipped:
`previous_hashes` is initialised empty and the load step is an
unimplemented stub, so the persisted table is never consumed. -/
theorem c2_second_run_recopies :
    c2FirstRun.savedTable
      = some [⟨"a.txt", 3, 5, md5Hex [1, 2, 3], sha256Hex [1, 2, 3]⟩]
    ∧ (run c2Cfg "/src" [c2File] c2FirstRun.fs).filesBackedUp = 1
    ∧ (run c2Cfg "/src" [c2File] c2FirstRun.fs).filesSkipped = 0
    ∧ (run c2Cfg "/src" [c2File] c2FirstRun.fs).currentHashes.length = 1
    ∧ (run c2Cfg "/src" [c2File] c2FirstRun.fs).errors = [] := by
  decide

/-- Claim C3 (code-bug evidence): a faithful compressed copy of a
2000-byte file writes the gzip artifact at the `.gz` path, then the
post-write check re-digests the plain path — which was never written and
is not decompressed output — so the copy is recorded as a per-file
failure. -/
theorem c3_compressed_copy_fails :
    (backupFile true false .sha256 c3Hash [7] ⟨[], []⟩).ok = false
    ∧ (backupFile true false .sha256 c3Hash [7] ⟨[], []⟩).errors
        = ["Backup failed for big.bin"]
    ∧ (backupFile true false .sha256 c3Hash [7] ⟨[], []⟩).fs.lookup (withGz "big.bin")
        = some (gzipCompress [7])
    ∧ (backupFile true false .sha256 c3Hash [7] ⟨[], []⟩).fs.lookup "big.bin" = none := by
  decide

/-- Claim C5 (code-bug evidence): a dry run over `sub/b.txt` into an
empty destination creates the directory `sub` (the `mkdir` precedes the
dry-run check), while writing no file and persisting nothing; the
reported count still includes the file. -/
theorem c5_dry_run_mutates_destination :
    (run c5Cfg "/src" [c5File] ⟨[], []⟩).fs.dirs = ["sub"]
    ∧ (run c5Cfg "/src" [c5File] ⟨[], []⟩).fs.files = []
    ∧ (run c5Cfg "/src" [c5File] ⟨[], []⟩).savedTable = none
    ∧ (run c5Cfg "/src" [c5File] ⟨[], []⟩).filesBackedUp = 1
    ∧ (run c5Cfg "/src" [c5File] ⟨[], []⟩).filesRemoved = 0 := by
  decide

/-- Counterexample to C6 as stated: a run whose single (compressed,
large) copy attempt fails digests one record but ends with
`files_backed_up + files_skipped = 0`. -/
theorem c6_copy_failure_counterexample :
    (run c6Cfg "/src" [c6File] ⟨[], []⟩).filesBackedUp
      + (run c6Cfg "/src" [c6File] ⟨[], []⟩).filesSkipped = 0
    ∧ (run c6Cfg "/src" [c6File] ⟨[], []⟩).currentHashes.length = 1 := by
  decide

end BackupUtil
